import Mathlib

/-!
Shallow embedding of the 2048-style game from the repository sources
(`board.rs`, `eval.rs`, `search.rs`, `bench.rs`) together with theorems
settling the specification claims.

Modelling conventions:
* `u8` tile ranks are embedded as `Nat`; the one place where `u8` overflow is
  possible (the `value + 1` of a merge) is embedded faithfully with `% 256`.
* `f32` quantities (evaluator scores, probabilities) are embedded as exact
  rationals `ℚ`, using the exact decimal literals of the source.
* `i32` monotonicity accumulators are embedded as `Int` (with ranks in the
  valid range `≤ 17` the fourth powers stay far below `2^31`, so wrap-around
  is unreachable and is not modelled).
* imperative `while` loops over array indices are embedded as structurally
  recursive functions on an explicit fuel argument; every call site passes
  enough fuel for the loop bound (`N` iterations suffice since the index
  strictly increases), so the fuel-exhaustion branch replicates the loop-exit
  behaviour and is unreachable.
* the two RNG draws (`random_range`, `random_bool`) are modelled by an
  explicit parameter where a claim needs them; `random_range(0..n)` is
  modelled as `pick % n`, which is exactly the guarantee the call provides
  (a value in `[0, n)`).
-/

namespace G2048

/-- Size of board (source: `pub const N: usize = 4`). -/
def N : Nat := 4

/-- One line/column of the board: `[u8; N]` embedded as a list of ranks. -/
abbrev Row := List Nat

/-- A board is an NxN matrix of tiles: `cells: [[u8; N]; N]`. -/
abbrev Grid := List (List Nat)

/-- Shape invariant of a `[[u8; N]; N]` array: 4 rows of 4 cells. -/
def ValidGrid (g : Grid) : Prop := g.length = 4 ∧ ∀ r ∈ g, r.length = 4

/-- No-overflow bound: every rank fits `u8` with room for one merge increment.
Game-reachable ranks are at most 17, so this covers every reachable board. -/
def SmallCells (g : Grid) : Prop := ∀ r ∈ g, ∀ c ∈ r, c ≤ 254

instance (g : Grid) : Decidable (ValidGrid g) := by
  unfold ValidGrid; exact inferInstance

instance (g : Grid) : Decidable (SmallCells g) := by
  unfold SmallCells; exact inferInstance

/-- Embedding of `row[write_index..].fill(0)`: zero out the tail from `w`. -/
def fillFrom (row : Row) (w : Nat) : Row :=
  row.take w ++ List.replicate (row.length - w) 0

/-- Embedding of the inner skip loop of `push_left`:
`while read_index < N && row[read_index] == 0 { read_index += 1 }`.
Returns the final `read_index`. -/
def skipZerosGo (row : Row) (r : Nat) : Nat → Nat
  | 0 => r
  | fuel + 1 =>
    if r < N ∧ row.getD r 0 = 0 then skipZerosGo row (r + 1) fuel else r

/-- The skip loop started with enough fuel (`N` iterations always suffice). -/
def skipZeros (row : Row) (r : Nat) : Nat := skipZerosGo row r N

/-- Embedding of the main loop of `fn push_left(row: &mut [u8; N])`
(`board.rs:281-314`), with `w`/`r` the `write_index`/`read_index` and the
merge write `value + 1` performed in `u8` arithmetic. -/
def pushLeftGo (row : Row) (w r : Nat) : Nat → Row
  | 0 => fillFrom row w
  | fuel + 1 =>
    if r < N then
      if row.getD r 0 = 0 then pushLeftGo row w (r + 1) fuel
      else
        let value := row.getD r 0
        let r2 := skipZeros row (r + 1)
        if r2 < N ∧ row.getD r2 0 = value then
          pushLeftGo (row.set w ((value + 1) % 256)) (w + 1) (r2 + 1) fuel
        else
          pushLeftGo (row.set w value) (w + 1) r2 fuel
    else fillFrom row w

/-- `fn push_left(row: &mut [u8; N])`: the canonical row primitive. -/
def push_left (row : Row) : Row := pushLeftGo row 0 0 N

/-- `Board::push_left`: apply the row primitive to each line. -/
def push_left_grid (g : Grid) : Grid := g.map push_left

/-- `Board::swap_lr`: the two-pointer swap loop reverses each row in place;
embedded as its effect, per-row reversal. -/
def swap_lr (g : Grid) : Grid := g.map List.reverse

/-- `Board::transpose` / `Board::transposed`: the in-place swap of every
`(i, j)`, `j < i`, pair exchanges lines and columns; embedded as its effect,
the matrix transpose of the 4x4 grid. -/
def transposed (g : Grid) : Grid :=
  [g.map (fun r => r.getD 0 0), g.map (fun r => r.getD 1 0),
   g.map (fun r => r.getD 2 0), g.map (fun r => r.getD 3 0)]

/-- `enum Action { Up, Down, Left, Right }`. -/
inductive Action where
  | up
  | down
  | left
  | right
deriving DecidableEq

/-- `ALL_ACTIONS: [Action; 4] = [Up, Down, Left, Right]`. -/
def ALL_ACTIONS : List Action := [Action.up, Action.down, Action.left, Action.right]

/-- The candidate board `next` built inside `Board::apply` (`board.rs:91-118`):
the symmetry-composed push for each direction. -/
def moved (g : Grid) (a : Action) : Grid :=
  match a with
  | Action.left => push_left_grid g
  | Action.up => transposed (push_left_grid (transposed g))
  | Action.down => transposed (swap_lr (push_left_grid (swap_lr (transposed g))))
  | Action.right => swap_lr (push_left_grid (swap_lr g))

/-- `Board::apply` (`board.rs:91-126`): build `next`, then return it exactly
when it differs structurally from the input, else `None`. -/
def apply (g : Grid) (a : Action) : Option Grid :=
  let next := moved g a
  if g ≠ next then some next else none

/-- `Board::num_empty`: count of empty (rank 0) cells. -/
def num_empty (g : Grid) : Nat := (g.flatten.filter (fun c => c = 0)).length

/-- The row-major enumeration of empty-cell coordinates built inside
`Board::random_successors` (`board.rs:174-178`). -/
def empty_cells (g : Grid) : List (Nat × Nat) :=
  g.enum.flatMap (fun p =>
    p.2.enum.filterMap (fun q => if q.2 = 0 then some (p.1, q.1) else none))

/-- `next.cells[i][j] = new_value` on a copy of the board. -/
def set_cell (g : Grid) (i j v : Nat) : Grid :=
  g.set i ((g.getD i []).set j v)

/-- `Board::random_successors` (`board.rs:171-189`): for every empty cell in
row-major order, the two placements `(1, 0.9)` then `(2, 0.1)`, each with
probability `proba / n` where `n` is the number of empty cells. -/
def random_successors (g : Grid) : List (ℚ × Grid) :=
  let n : ℚ := (num_empty g : ℚ)
  (empty_cells g).flatMap (fun p =>
    [(0.9 / n, set_cell g p.1 p.2 1), (0.1 / n, set_cell g p.1 p.2 2)])

/-- `PlayableBoard::has_at_least_tile`: some cell has rank at least `i`. -/
def has_at_least_tile (g : Grid) (i : Nat) : Bool :=
  g.flatten.any (fun tile => i ≤ tile)

/-! ## Evaluator (`eval.rs`), over exact rationals -/

/-- `NOT_LOST: f32 = 200_000f32`. -/
def NOT_LOST : ℚ := 200000

/-- `MONOTONICITY_WEIGHT: f32 = 47.0`. -/
def MONOTONICITY_WEIGHT : ℚ := 47

/-- `EMPTY_WEIGHT: f32 = 270.0`. -/
def EMPTY_WEIGHT : ℚ := 270

/-- `ADJACENT_WEIGHT: f32 = 700.0`. -/
def ADJACENT_WEIGHT : ℚ := 700

/-- `SUM_WEIGHT: f32 = 11.0`. -/
def SUM_WEIGHT : ℚ := 11

/-- `POW_3_5_LOOKUP: [f32; 18]`, the table whose entry `i` is `i^3.5`
(source comment), with the exact decimal literals of the source. -/
def POW_3_5_LOOKUP : List ℚ :=
  [0.0, 1.0, 11.313708, 46.765373, 128.0, 279.50848, 529.0898, 907.4927,
   1448.1547, 2187.0, 3162.2776, 4414.4277, 5985.968, 7921.396, 10267.107,
   13071.318, 16384.0, 20256.818]

/-- `fn empty(row: &Row) -> f32`: count of zero ranks. -/
def empty (row : Row) : ℚ := ((row.filter (fun c => c = 0)).length : ℚ)

/-- Embedding of the accumulation loop of `fn monotonicity` (`eval.rs:39-47`):
`for i in 0..(N-1)` updating `left`/`right` (the `i32` accumulators). -/
def monotonicityGo (row : Row) (i : Nat) (left right : Int) : Nat → Int × Int
  | 0 => (left, right)
  | fuel + 1 =>
    if i < N - 1 then
      let current : Int := (row.getD i 0 : Nat)
      let next : Int := (row.getD (i + 1) 0 : Nat)
      if current > next then
        monotonicityGo row (i + 1) (left + current ^ 4 - next ^ 4) right fuel
      else if next > current then
        monotonicityGo row (i + 1) left (right + next ^ 4 - current ^ 4) fuel
      else monotonicityGo row (i + 1) left right fuel
    else (left, right)

/-- `fn monotonicity(row: &Row) -> f32`: `-left.min(right)`. -/
def monotonicity (row : Row) : ℚ :=
  let p := monotonicityGo row 0 0 0 N
  ((-(min p.1 p.2) : Int) : ℚ)

/-- Embedding of the greedy while loop of `fn adjacent` (`eval.rs:52-66`):
equal adjacent nonzero ranks count one pair and skip both cells. -/
def adjacentGo (row : Row) (i cnt : Nat) : Nat → Nat
  | 0 => cnt
  | fuel + 1 =>
    if i < N - 1 then
      if row.getD i 0 ≠ 0 ∧ row.getD i 0 = row.getD (i + 1) 0 then
        adjacentGo row (i + 2) (cnt + 1) fuel
      else adjacentGo row (i + 1) cnt fuel
    else cnt

/-- `fn adjacent(row: &Row) -> f32`. -/
def adjacent (row : Row) : ℚ := (adjacentGo row 0 0 N : ℚ)

/-- `fn sum(row: &Row) -> f32`: negated sum of `POW_3_5_LOOKUP[v]` over the
row. The source indexing panics for a rank outside the 18-entry table; the
embedding uses `getD` and every theorem about it carries the valid-rank
precondition `v ≤ 17` under which the two coincide. -/
def sum (row : Row) : ℚ :=
  -(row.map (fun v => POW_3_5_LOOKUP.getD v 0)).sum

/-- `fn eval_row(row: &Row) -> f32` (`eval.rs:23-29`). -/
def eval_row (row : Row) : ℚ :=
  NOT_LOST + monotonicity row * MONOTONICITY_WEIGHT + empty row * EMPTY_WEIGHT
    + adjacent row * ADJACENT_WEIGHT + sum row * SUM_WEIGHT

/-- `pub fn eval(board: &Board) -> f32` (`eval.rs:6-15`): accumulate
`eval_row` over the rows of the board and of its transpose. -/
def eval (g : Grid) : ℚ :=
  (g.map eval_row).sum + ((transposed g).map eval_row).sum

/-! ## Action selection (`search.rs`) -/

/-- `pub fn select_action_randomly` (`search.rs:10-33`): filter `ALL_ACTIONS`
by applicability, return `none` on an empty list, else the uniformly drawn
element. The draw `rand::rng().random_range(0..num_actions)` is modelled by
the parameter `pick`, reduced into the guaranteed range by `% num_actions`. -/
def select_action_randomly (g : Grid) (pick : Nat) : Option Action :=
  let applicable := ALL_ACTIONS.filter (fun a => (apply g a).isSome)
  if applicable.length = 0 then none
  else some (applicable.getD (pick % applicable.length) Action.up)

/-! ## Benchmark aggregation (`bench.rs`)

A game result `Result<(f32, PlayableBoard)>` is embedded as
`Option (ℚ × Grid)`: `some (score, board)` for `Ok`, `none` for `Err`
(the error payload, a formatted message, plays no role in aggregation). -/

/-- One game outcome of the benchmark harness. -/
abbrev GameResult := Option (ℚ × Grid)

/-- `results.iter().filter_map(|x| x.as_ref().ok())` (`bench.rs:56`). -/
def valid_results (rs : List GameResult) : List (ℚ × Grid) := rs.filterMap id

/-- The count accumulated per tile rank in `bench.rs:59-64`: successful games
whose final board has a tile of rank `tile` or higher. -/
def reach_count (rs : List GameResult) (tile : Nat) : Nat :=
  ((valid_results rs).filter (fun p => has_at_least_tile p.2 tile)).length

/-- The percentage printed in `bench.rs:65-69`:
`(count as f32) / (num_games as f32) * 100.0`, where `num_games` is the total
number of games played (`results` has exactly `num_games` entries). -/
def reach_percent (rs : List GameResult) (tile : Nat) : ℚ :=
  (reach_count rs tile : ℚ) / (rs.length : ℚ) * 100

/-- `valid_results.len()` (`bench.rs:71`). -/
def num_success (rs : List GameResult) : Nat := (valid_results rs).length

/-- `results.len() - valid_results.len()` (`bench.rs:72-75`). -/
def num_failure (rs : List GameResult) : Nat := rs.length - num_success rs

/-- `average_score` (`bench.rs:76-77`): mean move count over the successes. -/
def average_score (rs : List GameResult) : ℚ :=
  ((valid_results rs).map Prod.fst).sum / ((valid_results rs).length : ℚ)

/-! ## Spec-side definitions

The following definitions transcribe the claims' own words, to be compared
with the source-side definitions above. -/

/-- Maximal runs of consecutive equal values as `(value, length)` pairs. -/
def runsOf : List Nat → List (Nat × Nat)
  | [] => []
  | a :: t =>
    match runsOf t with
    | [] => [(a, 1)]
    | (b, k) :: rest =>
      if a = b then (b, k + 1) :: rest else (a, 1) :: (b, k) :: rest

/-- Greedy merging of one run, as the amended claim words it: a run of `k`
equal ranks `a` yields `⌊k/2⌋` merged tiles of rank `a+1` followed by
`k mod 2` unmerged tiles of rank `a`. -/
def mergedRun (p : Nat × Nat) : List Nat :=
  List.replicate (p.2 / 2) (p.1 + 1) ++ List.replicate (p.2 % 2) p.1

/-- Spec-side description of the push primitive (amended claim C1): compact
the nonzero ranks leftward preserving order, merge each run greedily, pad
with trailing zeros to the row length 4. -/
def spec_push (row : Row) : Row :=
  let m := (runsOf (row.filter (fun c => c ≠ 0))).flatMap mergedRun
  m ++ List.replicate (4 - m.length) 0

/-- Claim C1's literal reading of the merge rule: exactly one adjacent equal
pair merged per contiguous run of equal ranks (a run of `k ≥ 2` equal ranks
`a` yields one `a+1` and `k-2` surviving `a`s). -/
def one_merge_push (row : Row) : Row :=
  let m := (runsOf (row.filter (fun c => c ≠ 0))).flatMap
    (fun p => if 2 ≤ p.2 then (p.1 + 1) :: List.replicate (p.2 - 2) p.1 else [p.1])
  m ++ List.replicate (4 - m.length) 0

/-- Number of nonzero cells of a row. -/
def nonzero_count (row : Row) : Nat := (row.filter (fun c => c ≠ 0)).length

/-- Total tile value of one row: each nonzero rank `r` is a tile of value
`2^r`; empty cells carry no value. -/
def row_value (row : Row) : Nat :=
  (row.map (fun c => if c ≠ 0 then 2 ^ c else 0)).sum

/-- Total tile value of a grid. -/
def grid_value (g : Grid) : Nat := (g.map row_value).sum

/-- The sixteen cell coordinates in row-major order. -/
def row_major_coords : List (Nat × Nat) :=
  [(0, 0), (0, 1), (0, 2), (0, 3),
   (1, 0), (1, 1), (1, 2), (1, 3),
   (2, 0), (2, 1), (2, 2), (2, 3),
   (3, 0), (3, 1), (3, 2), (3, 3)]

/-- The rank stored at coordinate `(i, j)`; the default 1 makes out-of-range
coordinates count as non-empty. -/
def cell_at (g : Grid) (p : Nat × Nat) : Nat := (g.getD p.1 []).getD p.2 1

/-- Adjacent ordered pairs of a row (`row[i], row[i+1]`). -/
def pairsOf (row : Row) : List (Nat × Nat) := row.zip row.tail

/-- Spec-side `leftcost`: sum of `left^4 - right^4` over descending adjacent
pairs. -/
def spec_left_cost (row : Row) : Int :=
  ((pairsOf row).map (fun p =>
    if p.1 > p.2 then (p.1 : Int) ^ 4 - (p.2 : Int) ^ 4 else 0)).sum

/-- Spec-side `rightcost`: sum of `right^4 - left^4` over ascending adjacent
pairs. -/
def spec_right_cost (row : Row) : Int :=
  ((pairsOf row).map (fun p =>
    if p.2 > p.1 then (p.2 : Int) ^ 4 - (p.1 : Int) ^ 4 else 0)).sum

/-- Spec-side monotonicity: `-min(leftcost, rightcost)`. -/
def spec_monotonicity (row : Row) : ℚ :=
  ((-(min (spec_left_cost row) (spec_right_cost row)) : Int) : ℚ)

/-- Spec-side adjacent-pairs count: greedy non-overlapping count of adjacent
equal nonzero ranks. -/
def spec_adjacent : List Nat → Nat
  | a :: b :: t =>
    if a ≠ 0 ∧ a = b then 1 + spec_adjacent t else spec_adjacent (b :: t)
  | _ => 0

/-- Spec-side row score (amended claim C4):
`200000 + 47·monotonicity + 270·empty_count + 700·adjacent_pairs +
11·(−Σ rank^3.5)`, the power taken from the fixed lookup table. -/
def spec_eval_row (row : Row) : ℚ :=
  200000 + 47 * spec_monotonicity row
    + 270 * ((row.countP (fun c => c = 0)) : ℚ)
    + 700 * (spec_adjacent row : ℚ)
    + 11 * (-(row.map (fun v => POW_3_5_LOOKUP.getD v 0)).sum)

/-- Claim C4's literal penalty term: `−Σ value(rank)^3.5` with
`value(rank) = 2^rank`, the power read from the lookup table (exact for the
counterexample row, where `value(rank)^3.5` is an exact table entry). -/
def claimed_value_pow_sum (row : Row) : ℚ :=
  -(row.map (fun v => POW_3_5_LOOKUP.getD (2 ^ v) 0)).sum

/-- Claim C4's literal row score: as `spec_eval_row` but with the penalty on
tile values rather than ranks. -/
def claimed_eval_row (row : Row) : ℚ :=
  200000 + 47 * spec_monotonicity row
    + 270 * ((row.countP (fun c => c = 0)) : ℚ)
    + 700 * (spec_adjacent row : ℚ)
    + 11 * claimed_value_pow_sum row

/-- Claim C5's literal reach percentage: relative to the successful games
only. -/
def claimed_reach_percent_over_successes (rs : List GameResult) (tile : Nat) : ℚ :=
  (reach_count rs tile : ℚ) / ((valid_results rs).length : ℚ) * 100

/-- Functional form of the push loop's merge phase on the already-compacted
(nonzero) values: one left-to-right pass, each merge consuming both cells,
the merged result never compared again. Proven equal to the loop below. -/
def mergeLeft : List Nat → List Nat
  | [] => []
  | [a] => [a]
  | a :: b :: t =>
    if b = a then ((a + 1) % 256) :: mergeLeft t else a :: mergeLeft (b :: t)

/-- `mergeLeft` of the compacted row, padded with zeros to the row length. -/
def padMerge (row : Row) : Row :=
  let m := mergeLeft (row.filter (fun c => c ≠ 0))
  m ++ List.replicate (4 - m.length) 0

end G2048

namespace G2048

/-! ## Destructuring helpers -/

theorem len4_iff {α : Type _} (l : List α) :
    l.length = 4 ↔ ∃ a b c d, l = [a, b, c, d] := by
  constructor
  · intro h
    rcases l with _ | ⟨a, _ | ⟨b, _ | ⟨c, _ | ⟨d, _ | e⟩⟩⟩⟩ <;> simp_all
  · rintro ⟨a, b, c, d, rfl⟩; rfl

theorem validGrid_iff (g : Grid) :
    ValidGrid g ↔ ∃ x00 x01 x02 x03 x10 x11 x12 x13 x20 x21 x22 x23 x30 x31 x32 x33 : Nat,
      g = [[x00, x01, x02, x03], [x10, x11, x12, x13],
           [x20, x21, x22, x23], [x30, x31, x32, x33]] := by
  constructor
  · rintro ⟨hl, hr⟩
    obtain ⟨r0, r1, r2, r3, rfl⟩ := (len4_iff g).1 hl
    obtain ⟨a, b, c, d, rfl⟩ := (len4_iff r0).1 (hr r0 (by simp))
    obtain ⟨e, f, h, i, rfl⟩ := (len4_iff r1).1 (hr r1 (by simp))
    obtain ⟨j, k, l, m, rfl⟩ := (len4_iff r2).1 (hr r2 (by simp))
    obtain ⟨n, o, p, q, rfl⟩ := (len4_iff r3).1 (hr r3 (by simp))
    exact ⟨a, b, c, d, e, f, h, i, j, k, l, m, n, o, p, q, rfl⟩
  · rintro ⟨x00, x01, x02, x03, x10, x11, x12, x13, x20, x21, x22, x23,
      x30, x31, x32, x33, rfl⟩
    constructor <;> simp [ValidGrid]

/-! ## The push primitive: loop = compact-then-merge -/

set_option maxRecDepth 4000 in
theorem push_left_eq_mergeLeft (row : Row) (hl : row.length = 4) :
    push_left row = padMerge row := by
  rcases row with _ | ⟨a, _ | ⟨b, _ | ⟨c, _ | ⟨d, _ | e⟩⟩⟩⟩ <;> simp_all
  by_cases ha : a = 0 <;> by_cases hb : b = 0 <;> by_cases hc : c = 0 <;>
    by_cases hd : d = 0 <;>
    simp [push_left, pushLeftGo, skipZeros, skipZerosGo, N, fillFrom,
      padMerge, mergeLeft, ha, hb, hc, hd] <;>
    split_ifs <;> simp_all [mergeLeft]

theorem flatMap_runs_cons_cons (a : Nat) (t : List Nat) :
    (runsOf (a :: a :: t)).flatMap mergedRun
      = (a + 1) :: (runsOf t).flatMap mergedRun := by
  cases h : runsOf t with
  | nil => simp [runsOf, h, mergedRun]
  | cons p rest =>
    rcases p with ⟨b, k⟩
    by_cases hab : a = b
    · subst hab
      simp [runsOf, h, mergedRun]
      rw [show (k + 2) / 2 = k / 2 + 1 by omega, show (k + 2) % 2 = k % 2 by omega]
      simp [List.replicate_succ]
    · simp [runsOf, h, hab, mergedRun]

theorem flatMap_runs_cons_ne (a b : Nat) (t : List Nat) (hba : ¬ b = a) :
    (runsOf (a :: b :: t)).flatMap mergedRun
      = a :: (runsOf (b :: t)).flatMap mergedRun := by
  have hab : ¬ a = b := fun h => hba h.symm
  cases h : runsOf t with
  | nil => simp [runsOf, h, hab, mergedRun]
  | cons p rest =>
    rcases p with ⟨c, k⟩
    by_cases hbc : b = c
    · subst hbc; simp [runsOf, h, hab, mergedRun]
    · simp [runsOf, h, hab, hbc, mergedRun]

theorem mergeLeft_eq_runs (l : List Nat) :
    (∀ x ∈ l, x ≤ 254) → mergeLeft l = (runsOf l).flatMap mergedRun := by
  induction l using mergeLeft.induct with
  | case1 => intro _; simp [mergeLeft, runsOf]
  | case2 a => intro _; simp [mergeLeft, runsOf, mergedRun]
  | case3 b t ih =>
    intro hs
    have hb : b + 1 < 256 := by have := hs b (by simp); omega
    rw [flatMap_runs_cons_cons]
    simp [mergeLeft, Nat.mod_eq_of_lt hb]
    exact ih (fun x hx => hs x (by simp [hx]))
  | case4 a b t hba ih =>
    intro hs
    rw [flatMap_runs_cons_ne a b t hba]
    simp [mergeLeft, hba]
    exact ih (fun x hx => hs x (by simp at hx ⊢; tauto))

theorem push_left_eq_spec (row : Row) (hl : row.length = 4)
    (hs : ∀ c ∈ row, c ≤ 254) : push_left row = spec_push row := by
  rw [push_left_eq_mergeLeft row hl]
  have hf : ∀ x ∈ row.filter (fun c => c ≠ 0), x ≤ 254 := by
    intro x hx
    exact hs x (List.mem_of_mem_filter hx)
  simp only [padMerge, spec_push, mergeLeft_eq_runs _ hf]

end G2048

namespace G2048

theorem mergeLeft_length_le (l : List Nat) : (mergeLeft l).length ≤ l.length := by
  induction l using mergeLeft.induct with
  | case1 => simp [mergeLeft]
  | case2 a => simp [mergeLeft]
  | case3 b t ih => simp [mergeLeft]; omega
  | case4 a b t hba ih => simp [mergeLeft, hba] at ih ⊢; omega

theorem mergeLeft_ne_zero (l : List Nat) :
    (∀ x ∈ l, x ≠ 0 ∧ x ≤ 254) → ∀ y ∈ mergeLeft l, y ≠ 0 := by
  induction l using mergeLeft.induct with
  | case1 => simp [mergeLeft]
  | case2 a => intro h; simpa [mergeLeft] using (h a (by simp)).1
  | case3 b t ih =>
    intro h y hy
    have hb : b + 1 < 256 := by have := (h b (by simp)).2; omega
    rw [mergeLeft, if_pos rfl] at hy
    rcases List.mem_cons.1 hy with hy2 | hy2
    · rw [hy2, Nat.mod_eq_of_lt hb]; omega
    · exact ih (fun x hx => h x (by simp [hx])) y hy2
  | case4 a b t hba ih =>
    intro h y hy
    rw [mergeLeft, if_neg hba] at hy
    rcases List.mem_cons.1 hy with rfl | hy
    · exact (h y (by simp)).1
    · exact ih (fun x hx => h x (by simp at hx ⊢; tauto)) y hy

theorem row_value_mergeLeft (l : List Nat) :
    (∀ x ∈ l, x ≠ 0 ∧ x ≤ 254) → row_value (mergeLeft l) = row_value l := by
  induction l using mergeLeft.induct with
  | case1 => simp [mergeLeft]
  | case2 a => simp [mergeLeft]
  | case3 b t ih =>
    intro h
    obtain ⟨hb0, hb⟩ := h b (by simp)
    have hlt : b + 1 < 256 := by omega
    have ih' := ih (fun x hx => h x (by simp [hx]))
    rw [mergeLeft, if_pos rfl]
    simp only [row_value, List.map_cons, List.sum_cons] at ih' ⊢
    rw [Nat.mod_eq_of_lt hlt, ih']
    have h1 : b + 1 ≠ 0 := by omega
    simp only [if_pos h1, if_pos hb0, pow_succ]
    omega
  | case4 a b t hba ih =>
    intro h
    have ih' := ih (fun x hx => h x (by simp at hx ⊢; tauto))
    rw [mergeLeft, if_neg hba]
    simp only [row_value, List.map_cons, List.sum_cons] at ih' ⊢
    omega

theorem row_value_filter (l : List Nat) :
    row_value (l.filter (fun c => c ≠ 0)) = row_value l := by
  induction l with
  | nil => simp [row_value]
  | cons a t ih =>
    by_cases ha : a = 0 <;> simp [row_value, ha] at ih ⊢ <;> simp [ih]

theorem mem_filter_nz {row : Row} (hs : ∀ c ∈ row, c ≤ 254) :
    ∀ x ∈ row.filter (fun c => c ≠ 0), x ≠ 0 ∧ x ≤ 254 := by
  intro x hx
  rw [List.mem_filter] at hx
  refine ⟨by simpa using hx.2, hs x hx.1⟩

theorem row_value_push_left (row : Row) (hl : row.length = 4)
    (hs : ∀ c ∈ row, c ≤ 254) : row_value (push_left row) = row_value row := by
  rw [push_left_eq_mergeLeft row hl]
  calc row_value (padMerge row)
      = row_value (mergeLeft (row.filter (fun c => c ≠ 0))) := by
        simp [padMerge, row_value]
    _ = row_value (row.filter (fun c => c ≠ 0)) :=
        row_value_mergeLeft _ (mem_filter_nz hs)
    _ = row_value row := row_value_filter row

theorem nonzero_count_push_left (row : Row) (hl : row.length = 4)
    (hs : ∀ c ∈ row, c ≤ 254) :
    nonzero_count (push_left row) ≤ nonzero_count row := by
  rw [push_left_eq_mergeLeft row hl]
  have hne := mergeLeft_ne_zero _ (mem_filter_nz hs)
  have h1 : (mergeLeft (row.filter (fun c => c ≠ 0))).filter (fun c => c ≠ 0)
      = mergeLeft (row.filter (fun c => c ≠ 0)) := by
    apply List.filter_eq_self.2
    intro x hx
    simpa using hne x hx
  have h2 : nonzero_count (padMerge row)
      = (mergeLeft (row.filter (fun c => c ≠ 0))).length := by
    rw [nonzero_count]
    show ((mergeLeft (row.filter (fun c => c ≠ 0))
      ++ List.replicate (4 - (mergeLeft (row.filter (fun c => c ≠ 0))).length) 0).filter
        (fun c => c ≠ 0)).length = _
    rw [List.filter_append, h1]
    simp
  rw [h2]
  calc (mergeLeft (row.filter (fun c => c ≠ 0))).length
      ≤ (row.filter (fun c => c ≠ 0)).length := mergeLeft_length_le _
    _ = nonzero_count row := rfl

theorem push_left_length (row : Row) (hl : row.length = 4) :
    (push_left row).length = 4 := by
  rw [push_left_eq_mergeLeft row hl]
  have h4 : (mergeLeft (row.filter (fun c => c ≠ 0))).length ≤ 4 := by
    calc (mergeLeft (row.filter (fun c => c ≠ 0))).length
        ≤ (row.filter (fun c => c ≠ 0)).length := mergeLeft_length_le _
      _ ≤ row.length := List.length_filter_le _ _
      _ = 4 := hl
  rw [padMerge]
  simp only [List.length_append, List.length_replicate]
  omega

end G2048

namespace G2048

theorem swap_lr_swap_lr (g : Grid) : swap_lr (swap_lr g) = g := by
  simp [swap_lr, List.map_map, Function.comp_def]

theorem transposed_transposed {g : Grid} (hv : ValidGrid g) :
    transposed (transposed g) = g := by
  obtain ⟨x00, x01, x02, x03, x10, x11, x12, x13, x20, x21, x22, x23,
    x30, x31, x32, x33, rfl⟩ := (validGrid_iff g).1 hv
  rfl

theorem valid_swap_lr {g : Grid} (hv : ValidGrid g) : ValidGrid (swap_lr g) := by
  obtain ⟨hl, hr⟩ := hv
  constructor
  · simpa [swap_lr] using hl
  · intro r hrm
    obtain ⟨r', hr', rfl⟩ := List.mem_map.1 hrm
    simpa using hr r' hr'

theorem valid_transposed {g : Grid} (hl : g.length = 4) :
    ValidGrid (transposed g) := by
  refine ⟨rfl, ?_⟩
  intro r hrm
  simp only [transposed, List.mem_cons, List.not_mem_nil, or_false] at hrm
  rcases hrm with rfl | rfl | rfl | rfl <;> simp [hl]

theorem valid_push_left_grid {g : Grid} (hv : ValidGrid g) :
    ValidGrid (push_left_grid g) := by
  obtain ⟨hl, hr⟩ := hv
  constructor
  · simpa [push_left_grid] using hl
  · intro r hrm
    obtain ⟨r', hr', rfl⟩ := List.mem_map.1 hrm
    exact push_left_length r' (hr r' hr')

theorem small_swap_lr {g : Grid} (hs : SmallCells g) : SmallCells (swap_lr g) := by
  intro r hrm c hcm
  obtain ⟨r', hr', rfl⟩ := List.mem_map.1 hrm
  exact hs r' hr' c (List.mem_reverse.1 hcm)

theorem small_transposed {g : Grid} (hv : ValidGrid g) (hs : SmallCells g) :
    SmallCells (transposed g) := by
  obtain ⟨x00, x01, x02, x03, x10, x11, x12, x13, x20, x21, x22, x23,
    x30, x31, x32, x33, rfl⟩ := (validGrid_iff g).1 hv
  simp [SmallCells, transposed] at hs ⊢
  tauto

theorem grid_value_swap_lr (g : Grid) : grid_value (swap_lr g) = grid_value g := by
  simp only [grid_value, swap_lr, List.map_map, Function.comp_def]
  congr 1
  apply List.map_congr_left
  intro r _
  simp [row_value, List.map_reverse, List.sum_reverse]

theorem grid_value_transposed {g : Grid} (hv : ValidGrid g) :
    grid_value (transposed g) = grid_value g := by
  obtain ⟨x00, x01, x02, x03, x10, x11, x12, x13, x20, x21, x22, x23,
    x30, x31, x32, x33, rfl⟩ := (validGrid_iff g).1 hv
  simp [grid_value, transposed, row_value]
  ring

theorem grid_value_push_left_grid {g : Grid} (hv : ValidGrid g)
    (hs : SmallCells g) : grid_value (push_left_grid g) = grid_value g := by
  obtain ⟨hl, hr⟩ := hv
  simp only [grid_value, push_left_grid, List.map_map, Function.comp_def]
  congr 1
  apply List.map_congr_left
  intro r hrm
  exact row_value_push_left r (hr r hrm) (hs r hrm)

end G2048

namespace G2048

/-- C1 counterexample: on the row `[1,1,1,1]` — a single contiguous run of
four equal ranks — the code's `push_left` performs two merges, producing
`[2,2,0,0]` and dropping the nonzero count by 2, whereas the claim's
"exactly one adjacent equal pair merged per contiguous run" would produce
`[2,1,1,0]`. -/
theorem c1_counterexample :
    push_left [1, 1, 1, 1] = [2, 2, 0, 0] ∧
    one_merge_push [1, 1, 1, 1] = [2, 1, 1, 0] ∧
    push_left [1, 1, 1, 1] ≠ one_merge_push [1, 1, 1, 1] ∧
    nonzero_count [1, 1, 1, 1] - nonzero_count (push_left [1, 1, 1, 1]) = 2 := by
  decide

/-- C1 (amended): for every 4-cell row (with ranks at most 254, so the `u8`
merge increment cannot wrap), `push_left` compacts the nonzero ranks leftward
preserving their order with trailing zeros, and greedily merges disjoint
adjacent equal pairs left to right: each contiguous run of `k` equal ranks
yields `⌊k/2⌋` merged tiles of rank+1 followed by `k mod 2` unmerged ones
(a merged tile never merges again in the same pass), and the nonzero-cell
count never increases. -/
theorem c1_push_left_row (row : Row) (hl : row.length = 4)
    (hs : ∀ c ∈ row, c ≤ 254) :
    push_left row = spec_push row ∧
    nonzero_count (push_left row) ≤ nonzero_count row :=
  ⟨push_left_eq_spec row hl hs, nonzero_count_push_left row hl hs⟩

/-- C1 witness: the amended theorem at the claim's own example `[1,1,1,0]`,
which pushes to `[2,1,0,0]`. -/
theorem c1_push_left_row_witness :
    (push_left [1, 1, 1, 0] = spec_push [1, 1, 1, 0] ∧
      nonzero_count (push_left [1, 1, 1, 0]) ≤ nonzero_count [1, 1, 1, 0]) ∧
    spec_push [1, 1, 1, 0] = [2, 1, 0, 0] :=
  ⟨c1_push_left_row [1, 1, 1, 0] (by decide) (by decide), by decide⟩

/-- C2: for every valid grid, the grid computed by `apply` for each direction
is the stated symmetry composition of the canonical left push — Left pushes
rows directly; Right mirrors, pushes, mirrors; Up transposes, pushes,
transposes; Down transposes, mirrors, pushes, mirrors, transposes — and
transpose and horizontal mirror are each self-inverse. -/
theorem c2_apply_symmetries (g : Grid) (hv : ValidGrid g) :
    moved g Action.left = push_left_grid g ∧
    moved g Action.right = swap_lr (push_left_grid (swap_lr g)) ∧
    moved g Action.up = transposed (push_left_grid (transposed g)) ∧
    moved g Action.down
      = transposed (swap_lr (push_left_grid (swap_lr (transposed g)))) ∧
    transposed (transposed g) = g ∧
    swap_lr (swap_lr g) = g :=
  ⟨rfl, rfl, rfl, rfl, transposed_transposed hv, swap_lr_swap_lr g⟩

/-- C2 witness: the symmetry compositions and both involutions at the
concrete grid of the repository's `test_actions` unit test. -/
theorem c2_apply_symmetries_witness :
    moved [[1, 2, 1, 0], [4, 1, 0, 0], [3, 0, 0, 0], [0, 0, 0, 0]] Action.left
        = push_left_grid [[1, 2, 1, 0], [4, 1, 0, 0], [3, 0, 0, 0], [0, 0, 0, 0]] ∧
    moved [[1, 2, 1, 0], [4, 1, 0, 0], [3, 0, 0, 0], [0, 0, 0, 0]] Action.right
        = swap_lr (push_left_grid (swap_lr [[1, 2, 1, 0], [4, 1, 0, 0], [3, 0, 0, 0], [0, 0, 0, 0]])) ∧
    moved [[1, 2, 1, 0], [4, 1, 0, 0], [3, 0, 0, 0], [0, 0, 0, 0]] Action.up
        = transposed (push_left_grid (transposed [[1, 2, 1, 0], [4, 1, 0, 0], [3, 0, 0, 0], [0, 0, 0, 0]])) ∧
    moved [[1, 2, 1, 0], [4, 1, 0, 0], [3, 0, 0, 0], [0, 0, 0, 0]] Action.down
        = transposed (swap_lr (push_left_grid (swap_lr (transposed [[1, 2, 1, 0], [4, 1, 0, 0], [3, 0, 0, 0], [0, 0, 0, 0]])))) ∧
    transposed (transposed [[1, 2, 1, 0], [4, 1, 0, 0], [3, 0, 0, 0], [0, 0, 0, 0]])
        = [[1, 2, 1, 0], [4, 1, 0, 0], [3, 0, 0, 0], [0, 0, 0, 0]] ∧
    swap_lr (swap_lr [[1, 2, 1, 0], [4, 1, 0, 0], [3, 0, 0, 0], [0, 0, 0, 0]])
        = [[1, 2, 1, 0], [4, 1, 0, 0], [3, 0, 0, 0], [0, 0, 0, 0]] :=
  c2_apply_symmetries [[1, 2, 1, 0], [4, 1, 0, 0], [3, 0, 0, 0], [0, 0, 0, 0]] (by decide)

/-- C3: for every grid and direction, `apply` returns `none` exactly when the
symmetry-composed push leaves the grid structurally equal to the input, and
otherwise returns `some` of the changed grid; structural equality with the
input is the sole legality test. -/
theorem c3_apply_legality (g : Grid) (a : Action) :
    (apply g a = none ↔ moved g a = g) ∧
    (∀ g', apply g a = some g' → g' = moved g a ∧ g' ≠ g) := by
  by_cases hg : g = moved g a
  · constructor
    · simp [apply, ← hg]
    · intro g' h
      simp [apply, ← hg] at h
  · constructor
    · simp [apply, hg]
      exact fun h => absurd h.symm hg
    · intro g' h
      simp [apply, hg] at h
      exact ⟨h.symm, by rw [← h]; exact fun hh => hg hh.symm⟩

/-- C3 witness: the legality equivalence at a concrete grid whose left move
is legal, with the changed grid returned. -/
theorem c3_apply_legality_witness :
    (apply [[0, 1, 0, 0], [0, 0, 0, 0], [0, 0, 0, 0], [0, 0, 0, 0]] Action.left = none
      ↔ moved [[0, 1, 0, 0], [0, 0, 0, 0], [0, 0, 0, 0], [0, 0, 0, 0]] Action.left
          = [[0, 1, 0, 0], [0, 0, 0, 0], [0, 0, 0, 0], [0, 0, 0, 0]]) ∧
    ([[1, 0, 0, 0], [0, 0, 0, 0], [0, 0, 0, 0], [0, 0, 0, 0]]
        = moved [[0, 1, 0, 0], [0, 0, 0, 0], [0, 0, 0, 0], [0, 0, 0, 0]] Action.left ∧
      [[1, 0, 0, 0], [0, 0, 0, 0], [0, 0, 0, 0], [0, 0, 0, 0]]
        ≠ [[0, 1, 0, 0], [0, 0, 0, 0], [0, 0, 0, 0], [0, 0, 0, 0]]) :=
  ⟨(c3_apply_legality [[0, 1, 0, 0], [0, 0, 0, 0], [0, 0, 0, 0], [0, 0, 0, 0]] Action.left).1,
   (c3_apply_legality [[0, 1, 0, 0], [0, 0, 0, 0], [0, 0, 0, 0], [0, 0, 0, 0]] Action.left).2
     [[1, 0, 0, 0], [0, 0, 0, 0], [0, 0, 0, 0], [0, 0, 0, 0]] (by decide)⟩

end G2048

namespace G2048

theorem length_filterMap_enumFrom (l : List Nat) (i : Nat) : ∀ n : Nat,
    ((l.enumFrom n).filterMap
      (fun q => if q.2 = 0 then some (i, q.1) else none)).length
        = (l.filter (fun c => c = 0)).length := by
  induction l with
  | nil => intro n; simp
  | cons a t ih =>
    intro n
    by_cases ha : a = 0 <;>
      simp [List.enumFrom_cons, List.filterMap_cons, ha, ih]

theorem length_filterMap_enum (l : List Nat) (i : Nat) :
    ((l.enum).filterMap
      (fun q => if q.2 = 0 then some (i, q.1) else none)).length
        = (l.filter (fun c => c = 0)).length := by
  rw [List.enum]
  exact length_filterMap_enumFrom l i 0

theorem length_flatMap_enumFrom (g : Grid) : ∀ n : Nat,
    ((g.enumFrom n).flatMap (fun p =>
      p.2.enum.filterMap (fun q => if q.2 = 0 then some (p.1, q.1) else none))).length
      = (g.flatten.filter (fun c => c = 0)).length := by
  induction g with
  | nil => intro n; simp
  | cons r t ih =>
    intro n
    simp only [List.enumFrom_cons, List.flatMap_cons, List.flatten_cons,
      List.filter_append, List.length_append]
    rw [length_filterMap_enum r n, ih (n + 1)]

theorem length_empty_cells (g : Grid) : (empty_cells g).length = num_empty g := by
  rw [empty_cells, num_empty, List.enum]
  exact length_flatMap_enumFrom g 0

/-- C10: on a board with zero empty cells, `random_successors` yields the
empty list — it produces no entries and, being a total function in this
embedding (as the lazily evaluated iterator is in the source), does not
fail. -/
theorem c10_full_board_successors (g : Grid) (h : num_empty g = 0) :
    random_successors g = [] := by
  have h0 : (empty_cells g).length = 0 := by rw [length_empty_cells, h]
  have he : empty_cells g = [] := List.length_eq_zero.1 h0
  simp [random_successors, he]

/-- C10 witness: the successor enumeration of a concrete full board is
empty. -/
theorem c10_full_board_successors_witness :
    num_empty [[1, 2, 1, 2], [2, 1, 2, 1], [1, 2, 1, 2], [2, 1, 2, 1]] = 0 ∧
    random_successors [[1, 2, 1, 2], [2, 1, 2, 1], [1, 2, 1, 2], [2, 1, 2, 1]] = [] :=
  ⟨by decide,
   c10_full_board_successors [[1, 2, 1, 2], [2, 1, 2, 1], [1, 2, 1, 2], [2, 1, 2, 1]]
     (by decide)⟩

/-- C9: for every valid grid with no-overflow ranks and every direction for
which `apply` returns `some next`, the total tile value (the sum of `2^rank`
over nonzero cells) is preserved: merging two tiles of rank `r` produces one
tile of rank `r+1` and compaction only relocates tiles. -/
theorem c9_apply_preserves_value (g : Grid) (a : Action) (g' : Grid)
    (hv : ValidGrid g) (hs : SmallCells g) (h : apply g a = some g') :
    grid_value g' = grid_value g := by
  have hg' : g' = moved g a := by
    by_cases hg : g = moved g a
    · simp [apply, ← hg] at h
    · simp [apply, hg] at h
      exact h.symm
  subst hg'
  cases a with
  | left => exact grid_value_push_left_grid hv hs
  | right =>
    rw [moved, grid_value_swap_lr,
      grid_value_push_left_grid (valid_swap_lr hv) (small_swap_lr hs),
      grid_value_swap_lr]
  | up =>
    rw [moved, grid_value_transposed (valid_push_left_grid (valid_transposed hv.1)),
      grid_value_push_left_grid (valid_transposed hv.1) (small_transposed hv hs),
      grid_value_transposed hv]
  | down =>
    rw [moved,
      grid_value_transposed
        (valid_swap_lr (valid_push_left_grid (valid_swap_lr (valid_transposed hv.1)))),
      grid_value_swap_lr,
      grid_value_push_left_grid (valid_swap_lr (valid_transposed hv.1))
        (small_swap_lr (small_transposed hv hs)),
      grid_value_swap_lr, grid_value_transposed hv]

/-- C9 witness: a legal left move on a concrete board preserves the total
tile value. -/
theorem c9_apply_preserves_value_witness :
    grid_value [[2, 2, 0, 0], [0, 0, 0, 0], [0, 0, 0, 0], [0, 0, 0, 0]]
      = grid_value [[1, 1, 2, 0], [0, 0, 0, 0], [0, 0, 0, 0], [0, 0, 0, 0]] :=
  c9_apply_preserves_value [[1, 1, 2, 0], [0, 0, 0, 0], [0, 0, 0, 0], [0, 0, 0, 0]]
    Action.left [[2, 2, 0, 0], [0, 0, 0, 0], [0, 0, 0, 0], [0, 0, 0, 0]]
    (by decide) (by decide) (by decide)

end G2048

namespace G2048

theorem mem_all_actions (a : Action) : a ∈ ALL_ACTIONS := by
  cases a <;> simp [ALL_ACTIONS]

/-- C7: for every board, the uniform-random selector returns `none` exactly
when no direction is legal (the board is terminal), and whenever it returns
`some a`, the direction `a` is legal for the board (`apply` succeeds on it)
and comes from the computed subset of legal directions. -/
theorem c7_select_action_randomly (g : Grid) (pick : Nat) :
    (select_action_randomly g pick = none ↔ ∀ a, apply g a = none) ∧
    (∀ a, select_action_randomly g pick = some a →
      (apply g a).isSome = true ∧
        a ∈ ALL_ACTIONS.filter (fun x => (apply g x).isSome)) := by
  constructor
  · constructor
    · intro h a
      rw [select_action_randomly] at h
      split_ifs at h with hlen
      have hnil : ALL_ACTIONS.filter (fun x => (apply g x).isSome) = [] :=
        List.length_eq_zero.1 hlen
      have := List.filter_eq_nil_iff.1 hnil a (mem_all_actions a)
      simpa [Option.isSome_iff_ne_none] using this
    · intro h
      rw [select_action_randomly]
      have hnil : ALL_ACTIONS.filter (fun x => (apply g x).isSome) = [] := by
        apply List.filter_eq_nil_iff.2
        intro a _
        simp [h a]
      rw [hnil]
      simp
  · intro a ha
    rw [select_action_randomly] at ha
    split_ifs at ha with hlen
    have hpos : 0 < (ALL_ACTIONS.filter (fun x => (apply g x).isSome)).length :=
      Nat.pos_of_ne_zero hlen
    have hlt : pick % (ALL_ACTIONS.filter (fun x => (apply g x).isSome)).length
        < (ALL_ACTIONS.filter (fun x => (apply g x).isSome)).length :=
      Nat.mod_lt _ hpos
    have hmem : (ALL_ACTIONS.filter (fun x => (apply g x).isSome)).getD
        (pick % (ALL_ACTIONS.filter (fun x => (apply g x).isSome)).length) Action.up
          ∈ ALL_ACTIONS.filter (fun x => (apply g x).isSome) := by
      rw [List.getD_eq_getElem _ _ hlt]
      exact List.getElem_mem hlt
    have ha' : a ∈ ALL_ACTIONS.filter (fun x => (apply g x).isSome) := by
      have := Option.some.inj ha
      rw [← this]
      exact hmem
    refine ⟨?_, ha'⟩
    simpa using (List.mem_filter.1 ha').2

/-- C7 witness: the selector at a concrete terminal board (returns `none`)
and at a board where the drawn index picks the legal Left move. -/
theorem c7_select_action_randomly_witness :
    ((select_action_randomly [[1, 2, 1, 2], [2, 1, 2, 1], [1, 2, 1, 2], [2, 1, 2, 1]] 0 = none
        ↔ ∀ a, apply [[1, 2, 1, 2], [2, 1, 2, 1], [1, 2, 1, 2], [2, 1, 2, 1]] a = none) ∧
      (∀ a, select_action_randomly [[1, 2, 1, 2], [2, 1, 2, 1], [1, 2, 1, 2], [2, 1, 2, 1]] 0 = some a →
        (apply [[1, 2, 1, 2], [2, 1, 2, 1], [1, 2, 1, 2], [2, 1, 2, 1]] a).isSome = true ∧
          a ∈ ALL_ACTIONS.filter
            (fun x => (apply [[1, 2, 1, 2], [2, 1, 2, 1], [1, 2, 1, 2], [2, 1, 2, 1]] x).isSome))) ∧
    select_action_randomly [[1, 2, 1, 2], [2, 1, 2, 1], [1, 2, 1, 2], [2, 1, 2, 1]] 0 = none ∧
    select_action_randomly [[0, 1, 0, 0], [0, 0, 0, 0], [0, 0, 0, 0], [0, 0, 0, 0]] 1 = some Action.left :=
  ⟨c7_select_action_randomly [[1, 2, 1, 2], [2, 1, 2, 1], [1, 2, 1, 2], [2, 1, 2, 1]] 0,
   by decide, by decide⟩

/-- C8: for every valid grid `G`, `eval G = eval (transposed G)` — the
evaluator, which sums `eval_row` over all 4 rows and all 4 rows of the
transposed grid, is transpose-symmetric. -/
theorem c8_eval_transpose_symmetric (g : Grid) (hv : ValidGrid g) :
    eval g = eval (transposed g) := by
  rw [eval, eval, transposed_transposed hv, add_comm]

/-- C8 witness: transpose symmetry of the evaluator at a concrete grid. -/
theorem c8_eval_transpose_symmetric_witness :
    eval [[1, 2, 1, 0], [4, 1, 0, 0], [3, 0, 0, 0], [0, 0, 0, 0]]
      = eval (transposed [[1, 2, 1, 0], [4, 1, 0, 0], [3, 0, 0, 0], [0, 0, 0, 0]]) :=
  c8_eval_transpose_symmetric [[1, 2, 1, 0], [4, 1, 0, 0], [3, 0, 0, 0], [0, 0, 0, 0]]
    (by decide)

end G2048

namespace G2048

set_option maxHeartbeats 1000000 in
theorem monoGo_fst (a b c d : Nat) :
    (monotonicityGo [a, b, c, d] 0 0 0 N).1 = spec_left_cost [a, b, c, d] := by
  rcases Nat.lt_trichotomy a b with h1 | h1 | h1 <;>
    rcases Nat.lt_trichotomy b c with h2 | h2 | h2 <;>
      rcases Nat.lt_trichotomy c d with h3 | h3 | h3 <;>
    simp [monotonicityGo, N, spec_left_cost, pairsOf,
      h1, h2, h3, Nat.lt_irrefl, not_lt_of_gt, lt_asymm, Nat.cast_lt] <;>
    (try split_ifs) <;> (first | rfl | ring1 | omega | (exfalso; omega))

set_option maxHeartbeats 1000000 in
theorem monoGo_snd (a b c d : Nat) :
    (monotonicityGo [a, b, c, d] 0 0 0 N).2 = spec_right_cost [a, b, c, d] := by
  rcases Nat.lt_trichotomy a b with h1 | h1 | h1 <;>
    rcases Nat.lt_trichotomy b c with h2 | h2 | h2 <;>
      rcases Nat.lt_trichotomy c d with h3 | h3 | h3 <;>
    simp [monotonicityGo, N, spec_right_cost, pairsOf,
      h1, h2, h3, Nat.lt_irrefl, not_lt_of_gt, lt_asymm, Nat.cast_lt] <;>
    (try split_ifs) <;> (first | rfl | ring1 | omega | (exfalso; omega))

theorem monotonicity_eq_spec (a b c d : Nat) :
    monotonicity [a, b, c, d] = spec_monotonicity [a, b, c, d] := by
  rw [monotonicity, spec_monotonicity, ← monoGo_fst a b c d, ← monoGo_snd a b c d]

theorem adjacent_eq_spec (a b c d : Nat) :
    adjacentGo [a, b, c, d] 0 0 N = spec_adjacent [a, b, c, d] := by
  by_cases h1 : a ≠ 0 ∧ a = b <;> by_cases h2 : b ≠ 0 ∧ b = c <;>
    by_cases h3 : c ≠ 0 ∧ c = d <;>
    simp [adjacentGo, N, spec_adjacent, h1, h2, h3] <;>
    (try split_ifs) <;> simp_all <;> omega

end G2048

namespace G2048

/-- C4 counterexample: on the row `[2,0,0,0]` the code's penalty term is
`rank^3.5` (the lookup table maps index `i` to `i^3.5`, so rank 2 costs
`11.313708`), while the claim's `value(rank)^3.5 = (2^rank)^3.5` would cost
`4^3.5 = 128` (an exact table entry); the two row scores differ. -/
theorem c4_counterexample :
    eval_row [2, 0, 0, 0] ≠ claimed_eval_row [2, 0, 0, 0] ∧
    eval_row [2, 0, 0, 0] = 200685.549212 ∧
    claimed_eval_row [2, 0, 0, 0] = 199369 := by
  norm_num [eval_row, claimed_eval_row, monotonicity, spec_monotonicity,
    monotonicityGo, N, empty, adjacent, adjacentGo, sum, spec_adjacent,
    spec_left_cost, spec_right_cost, pairsOf, POW_3_5_LOOKUP, NOT_LOST,
    MONOTONICITY_WEIGHT, EMPTY_WEIGHT, ADJACENT_WEIGHT, SUM_WEIGHT,
    claimed_value_pow_sum]

/-- C4 (amended): for every valid 4-cell row (ranks within the 18-entry
table), `eval_row row = 200000 + 47·monotonicity + 270·empty_count +
700·adjacent_pairs + 11·(−Σ rank^3.5)`, with the power taken from the fixed
lookup table (which maps rank `i` to `i^3.5`), monotonicity
`= −min(leftcost, rightcost)` over descending/ascending adjacent pairs of
fourth powers, and adjacent_pairs the greedy non-overlapping count of
adjacent equal nonzero ranks. -/
theorem c4_eval_row (row : Row) (hl : row.length = 4)
    (hranks : ∀ v ∈ row, v ≤ 17) : eval_row row = spec_eval_row row := by
  obtain ⟨a, b, c, d, rfl⟩ := (len4_iff row).1 hl
  rw [eval_row, spec_eval_row, monotonicity_eq_spec a b c d, adjacent,
    adjacent_eq_spec a b c d, empty, List.countP_eq_length_filter, sum,
    NOT_LOST, MONOTONICITY_WEIGHT, EMPTY_WEIGHT, ADJACENT_WEIGHT, SUM_WEIGHT]
  ring

/-- C4 witness: the amended row-score formula at the concrete row
`[1,2,0,1]`. -/
theorem c4_eval_row_witness :
    eval_row [1, 2, 0, 1] = spec_eval_row [1, 2, 0, 1] :=
  c4_eval_row [1, 2, 0, 1] (by decide) (by decide)

/-- C5 counterexample: with one successful game that reached rank 3 and one
failed game, the code reports a reach percentage of 50 (count divided by the
TOTAL number of games), while the claim's "percentage of successful games"
would be 100. -/
theorem c5_counterexample :
    reach_percent
        [some (10, [[3, 0, 0, 0], [0, 0, 0, 0], [0, 0, 0, 0], [0, 0, 0, 0]]), none] 3
      = 50 ∧
    claimed_reach_percent_over_successes
        [some (10, [[3, 0, 0, 0], [0, 0, 0, 0], [0, 0, 0, 0], [0, 0, 0, 0]]), none] 3
      = 100 ∧
    reach_percent
        [some (10, [[3, 0, 0, 0], [0, 0, 0, 0], [0, 0, 0, 0], [0, 0, 0, 0]]), none] 3
      ≠ claimed_reach_percent_over_successes
          [some (10, [[3, 0, 0, 0], [0, 0, 0, 0], [0, 0, 0, 0], [0, 0, 0, 0]]), none] 3 := by
  norm_num [reach_percent, claimed_reach_percent_over_successes, reach_count,
    valid_results, has_at_least_tile, List.filterMap_cons, List.filter_cons,
    List.any_cons, List.any_nil]

/-- C5 (amended): the reported reach percentage for a rank is the count of
successful games whose terminal grid contains a tile of that rank or higher,
as a percentage of ALL games played (failures included in the denominator);
the mean move count is taken over successes only; only successes enter the
reach count; success and failure counts partition the games and the failure
count is reported separately; and "contains a tile of that rank or higher"
means some cell is at least the rank. -/
theorem c5_aggregation (rs : List GameResult) (tile : Nat) :
    reach_percent rs tile = (reach_count rs tile : ℚ) / (rs.length : ℚ) * 100 ∧
    reach_count rs tile
      = ((rs.filterMap id).filter (fun p => has_at_least_tile p.2 tile)).length ∧
    average_score rs
      = ((rs.filterMap id).map Prod.fst).sum / ((rs.filterMap id).length : ℚ) ∧
    num_failure rs = rs.length - num_success rs ∧
    reach_count rs tile ≤ num_success rs ∧
    num_success rs + num_failure rs = rs.length ∧
    (∀ gg : Grid, has_at_least_tile gg tile = true ↔ ∃ r ∈ gg, ∃ c ∈ r, tile ≤ c) := by
  refine ⟨rfl, rfl, rfl, rfl, List.length_filter_le _ _, ?_, ?_⟩
  · rw [num_failure]
    have := List.length_filterMap_le id rs
    rw [num_success, valid_results]
    omega
  · intro gg
    simp only [has_at_least_tile, List.any_eq_true, List.mem_flatten,
      decide_eq_true_eq]
    constructor
    · rintro ⟨x, ⟨l, hl, hx⟩, hle⟩
      exact ⟨l, hl, x, hx, hle⟩
    · rintro ⟨l, hl, x, hx, hle⟩
      exact ⟨x, ⟨l, hl, hx⟩, hle⟩

end G2048

namespace G2048

theorem length_flatMap_pair {α β : Type _} (l : List α) (f g : α → β) :
    (l.flatMap (fun x => [f x, g x])).length = 2 * l.length := by
  induction l with
  | nil => simp
  | cons a t ih => simp [ih]; omega

theorem sum_fst_flatMap_pair (l : List (Nat × Nat)) (c1 c2 : ℚ)
    (f g : Nat × Nat → Grid) :
    ((l.flatMap (fun p => [(c1, f p), (c2, g p)])).map Prod.fst).sum
      = l.length * (c1 + c2) := by
  induction l with
  | nil => simp
  | cons a t ih => simp [ih]; ring

theorem row_filterMap_eq (i a b c d : Nat) :
    ([a, b, c, d].enum).filterMap
        (fun q => if q.2 = 0 then some (i, q.1) else none)
      = ([(i, 0), (i, 1), (i, 2), (i, 3)]).filter
          (fun p => [a, b, c, d].getD p.2 1 = 0) := by
  by_cases ha : a = 0 <;> by_cases hb : b = 0 <;> by_cases hc : c = 0 <;>
    by_cases hd : d = 0 <;>
    simp [List.enum, List.enumFrom, List.filterMap_cons, ha, hb, hc, hd]

/-- C6: for every valid board with `e > 0` empty cells, the successor
enumeration yields exactly `2e` entries, visits exactly the empty cells in
row-major order, pairs each with rank 1 at probability `0.9/e` then rank 2
at probability `0.1/e`, and the probabilities sum exactly to 1. -/
theorem c6_random_successors (g : Grid) (hv : ValidGrid g)
    (hpos : 0 < num_empty g) :
    (random_successors g).length = 2 * num_empty g ∧
    empty_cells g = row_major_coords.filter (fun p => cell_at g p = 0) ∧
    random_successors g = (empty_cells g).flatMap (fun p =>
      [(0.9 / (num_empty g : ℚ), set_cell g p.1 p.2 1),
       (0.1 / (num_empty g : ℚ), set_cell g p.1 p.2 2)]) ∧
    ((random_successors g).map Prod.fst).sum = 1 := by
  have hlen : (random_successors g).length = 2 * num_empty g := by
    rw [random_successors]
    rw [length_flatMap_pair (empty_cells g)
      (fun p => ((0.9 : ℚ) / (num_empty g : ℚ), set_cell g p.1 p.2 1))
      (fun p => ((0.1 : ℚ) / (num_empty g : ℚ), set_cell g p.1 p.2 2))]
    rw [length_empty_cells]
  refine ⟨hlen, ?_, rfl, ?_⟩
  · obtain ⟨a, b, c, d, e, f, h, i, j, k, l, m, n, o, p, q, rfl⟩ :=
      (validGrid_iff g).1 hv
    show ((([[a, b, c, d], [e, f, h, i], [j, k, l, m], [n, o, p, q]] :
        Grid).enum).flatMap fun pr =>
          pr.2.enum.filterMap
            (fun qr => if qr.2 = 0 then some (pr.1, qr.1) else none)) = _
    have henum : (([[a, b, c, d], [e, f, h, i], [j, k, l, m], [n, o, p, q]] :
        Grid).enum)
      = [(0, [a, b, c, d]), (1, [e, f, h, i]), (2, [j, k, l, m]),
         (3, [n, o, p, q])] := rfl
    rw [henum]
    simp only [List.flatMap_cons, List.flatMap_nil, List.append_nil]
    rw [row_filterMap_eq 0 a b c d, row_filterMap_eq 1 e f h i,
      row_filterMap_eq 2 j k l m, row_filterMap_eq 3 n o p q]
    have hsplit : row_major_coords
        = [(0, 0), (0, 1), (0, 2), (0, 3)] ++
          ([(1, 0), (1, 1), (1, 2), (1, 3)] ++
            ([(2, 0), (2, 1), (2, 2), (2, 3)] ++
              [(3, 0), (3, 1), (3, 2), (3, 3)])) := rfl
    rw [hsplit, List.filter_append, List.filter_append, List.filter_append]
    have e1 : List.filter
          (fun pr => cell_at [[a, b, c, d], [e, f, h, i], [j, k, l, m], [n, o, p, q]] pr = 0)
          ([((0 : Nat), (0 : Nat)), (0, 1), (0, 2), (0, 3)])
        = List.filter (fun pr => [a, b, c, d].getD pr.2 1 = 0)
            ([((0 : Nat), (0 : Nat)), (0, 1), (0, 2), (0, 3)]) := by
      apply List.filter_congr
      intro x hx
      fin_cases hx <;> rfl
    have e2 : List.filter
          (fun pr => cell_at [[a, b, c, d], [e, f, h, i], [j, k, l, m], [n, o, p, q]] pr = 0)
          ([((1 : Nat), (0 : Nat)), (1, 1), (1, 2), (1, 3)])
        = List.filter (fun pr => [e, f, h, i].getD pr.2 1 = 0)
            ([((1 : Nat), (0 : Nat)), (1, 1), (1, 2), (1, 3)]) := by
      apply List.filter_congr
      intro x hx
      fin_cases hx <;> rfl
    have e3 : List.filter
          (fun pr => cell_at [[a, b, c, d], [e, f, h, i], [j, k, l, m], [n, o, p, q]] pr = 0)
          ([((2 : Nat), (0 : Nat)), (2, 1), (2, 2), (2, 3)])
        = List.filter (fun pr => [j, k, l, m].getD pr.2 1 = 0)
            ([((2 : Nat), (0 : Nat)), (2, 1), (2, 2), (2, 3)]) := by
      apply List.filter_congr
      intro x hx
      fin_cases hx <;> rfl
    have e4 : List.filter
          (fun pr => cell_at [[a, b, c, d], [e, f, h, i], [j, k, l, m], [n, o, p, q]] pr = 0)
          ([((3 : Nat), (0 : Nat)), (3, 1), (3, 2), (3, 3)])
        = List.filter (fun pr => [n, o, p, q].getD pr.2 1 = 0)
            ([((3 : Nat), (0 : Nat)), (3, 1), (3, 2), (3, 3)]) := by
      apply List.filter_congr
      intro x hx
      fin_cases hx <;> rfl
    rw [e1, e2, e3, e4]
  · have hne : (num_empty g : ℚ) ≠ 0 := by
      exact_mod_cast Nat.pos_iff_ne_zero.1 hpos
    rw [random_successors]
    rw [sum_fst_flatMap_pair (empty_cells g) _ _
      (fun p => set_cell g p.1 p.2 1) (fun p => set_cell g p.1 p.2 2)]
    rw [length_empty_cells, div_add_div_same]
    norm_num
    exact mul_inv_cancel₀ hne

/-- C6 witness: the successor enumeration on a concrete board with a single
empty cell. -/
theorem c6_random_successors_witness :
    (random_successors [[1, 0, 2, 1], [1, 2, 1, 2], [2, 1, 2, 1], [1, 2, 1, 2]]).length
        = 2 * num_empty [[1, 0, 2, 1], [1, 2, 1, 2], [2, 1, 2, 1], [1, 2, 1, 2]] ∧
    empty_cells [[1, 0, 2, 1], [1, 2, 1, 2], [2, 1, 2, 1], [1, 2, 1, 2]]
        = row_major_coords.filter
            (fun p => cell_at [[1, 0, 2, 1], [1, 2, 1, 2], [2, 1, 2, 1], [1, 2, 1, 2]] p = 0) ∧
    random_successors [[1, 0, 2, 1], [1, 2, 1, 2], [2, 1, 2, 1], [1, 2, 1, 2]]
        = (empty_cells [[1, 0, 2, 1], [1, 2, 1, 2], [2, 1, 2, 1], [1, 2, 1, 2]]).flatMap
            (fun p =>
              [(0.9 / (num_empty [[1, 0, 2, 1], [1, 2, 1, 2], [2, 1, 2, 1], [1, 2, 1, 2]] : ℚ),
                  set_cell [[1, 0, 2, 1], [1, 2, 1, 2], [2, 1, 2, 1], [1, 2, 1, 2]] p.1 p.2 1),
               (0.1 / (num_empty [[1, 0, 2, 1], [1, 2, 1, 2], [2, 1, 2, 1], [1, 2, 1, 2]] : ℚ),
                  set_cell [[1, 0, 2, 1], [1, 2, 1, 2], [2, 1, 2, 1], [1, 2, 1, 2]] p.1 p.2 2)]) ∧
    ((random_successors [[1, 0, 2, 1], [1, 2, 1, 2], [2, 1, 2, 1], [1, 2, 1, 2]]).map
        Prod.fst).sum = 1 :=
  c6_random_successors [[1, 0, 2, 1], [1, 2, 1, 2], [2, 1, 2, 1], [1, 2, 1, 2]]
    (by decide) (by decide)

end G2048
